import Mathlib

/-!
# Circular queue (`src/main.go`)

Shallow embedding of the `CircularQueue` type of `src/main.go` and of its
operations `NewCircularQueue`, `IsEmpty`, `IsFull`, `Enqueue`, `Dequeue`,
`Front` and `Rear`.

Modelling conventions

* A Go `int` is a Lean `Int`; every addition the source performs is wrapped to
  the 64-bit two's complement range by `wrapInt`.
* Go's `%` truncates towards zero (`Int.tmod`) and panics on a zero divisor.
* A value of type `interface{}` is an `Option α`: `none` is Go's `nil`.
* The slice `data` is a `List`; reading or writing outside `0 ≤ i < len`
  panics.
* A run-time panic is the `Except.error` result; the state at the panic is
  dropped.
* `Enqueue`, `Dequeue`, `Front`, `Rear` are the sequential code between `Lock`
  and the deferred `Unlock`; the mutex `mu` itself is modelled separately by
  `Guarded`.
* `make` is assumed to succeed for every non-negative length.
-/

namespace CircularQueueGo

/-- Run-time panics the code of `src/main.go` can raise. -/
inductive Panic where
  | divideByZero
  | indexOutOfRange
  | makesliceLenOutOfRange
  deriving DecidableEq, Repr

deriving instance DecidableEq for Except

/-- The struct `CircularQueue` of `src/main.go` (lines 9-14), without `mu`. -/
structure CircularQueue (α : Type) where
  data : List (Option α)
  front : Int
  rear : Int
  deriving DecidableEq, Repr

/-- Largest Go `int` (64 bit). -/
def maxInt : Int := 9223372036854775807

/-- Two's complement wrap of an integer result to the range of a Go `int`. -/
def wrapInt (x : Int) : Int :=
  (x + 9223372036854775808) % 18446744073709551616 - 9223372036854775808

/-- Go's `a % b` on `int`: truncated remainder, panic when `b = 0`. -/
def goMod (a b : Int) : Except Panic Int :=
  if b = 0 then .error .divideByZero else .ok (Int.tmod a b)

/-- Go's `len(d)`. -/
def len {α : Type} (d : List (Option α)) : Int := (d.length : Int)

/-- Go's `d[i]` as an expression: panic when `i` is out of range. -/
def sliceGet {α : Type} (d : List (Option α)) (i : Int) : Except Panic (Option α) :=
  if i < 0 then .error .indexOutOfRange
  else
    match d[i.toNat]? with
    | some x => .ok x
    | none => .error .indexOutOfRange

/-- Go's `d[i] = v`: panic when `i` is out of range. -/
def sliceSet {α : Type} (d : List (Option α)) (i : Int) (v : Option α) :
    Except Panic (List (Option α)) :=
  if i < 0 then .error .indexOutOfRange
  else if i.toNat < d.length then .ok (d.set i.toNat v)
  else .error .indexOutOfRange

/-- The constructor `NewCircularQueue` (lines 17-23): `make([]interface{}, capacity)` with
`front = rear = -1`. `make` panics on a negative length. -/
def NewCircularQueue {α : Type} (capacity : Int) : Except Panic (CircularQueue α) :=
  if capacity < 0 then .error .makesliceLenOutOfRange
  else .ok { data := List.replicate capacity.toNat none, front := -1, rear := -1 }

/-- Method `IsEmpty` (lines 26-28). -/
def IsEmpty {α : Type} (cq : CircularQueue α) : Bool :=
  cq.front == -1

/-- Method `IsFull` (lines 31-33): `(cq.rear+1)%len(cq.data) == cq.front`. -/
def IsFull {α : Type} (cq : CircularQueue α) : Except Panic Bool := do
  let m ← goMod (wrapInt (cq.rear + 1)) (len cq.data)
  pure (m == cq.front)

/-- Method `Enqueue` (lines 36-51). Returns the boolean result and the new state. -/
def Enqueue {α : Type} (cq : CircularQueue α) (value : Option α) :
    Except Panic (Bool × CircularQueue α) := do
  if (← IsFull cq) then
    pure (false, cq)
  else
    let cq1 := if IsEmpty cq then { cq with front := 0 } else cq
    let r ← goMod (wrapInt (cq1.rear + 1)) (len cq1.data)
    let cq2 := { cq1 with rear := r }
    let d ← sliceSet cq2.data cq2.rear value
    pure (true, { cq2 with data := d })

/-- Method `Dequeue` (lines 54-73). Returns the dequeued value and the new state. -/
def Dequeue {α : Type} (cq : CircularQueue α) :
    Except Panic (Option α × CircularQueue α) := do
  if IsEmpty cq then
    pure (none, cq)
  else
    let value ← sliceGet cq.data cq.front
    if cq.front == cq.rear then
      pure (value, { cq with front := -1, rear := -1 })
    else
      let f ← goMod (wrapInt (cq.front + 1)) (len cq.data)
      pure (value, { cq with front := f })

/-- Method `Front` (lines 76-85). -/
def Front {α : Type} (cq : CircularQueue α) : Except Panic (Int × Option α) := do
  if IsEmpty cq then
    pure (cq.front, none)
  else
    let v ← sliceGet cq.data cq.front
    pure (cq.front, v)

/-- Method `Rear` (lines 88-97). -/
def Rear {α : Type} (cq : CircularQueue α) : Except Panic (Int × Option α) := do
  if IsEmpty cq then
    pure (cq.rear, none)
  else
    let v ← sliceGet cq.data cq.rear
    pure (cq.rear, v)

/-! ## Sequences of calls -/

/-- One call of a mutating operation. -/
inductive Op (α : Type) where
  | enqueue (v : Option α)
  | dequeue
  deriving DecidableEq, Repr

/-- What one call did:
* `enqOk v`: `Enqueue(v)` returned `true`;
* `enqFull v`: `Enqueue(v)` returned `false`;
* `deqOk x`: `Dequeue()` was called on a non-empty queue and returned `x`;
* `deqEmpty x`: `Dequeue()` was called on an empty queue and returned `x`. -/
inductive Event (α : Type) where
  | enqOk (v : Option α)
  | enqFull (v : Option α)
  | deqOk (x : Option α)
  | deqEmpty (x : Option α)
  deriving DecidableEq, Repr

/-- Perform one call and record what it did. -/
def step {α : Type} (cq : CircularQueue α) : Op α → Except Panic (Event α × CircularQueue α)
  | .enqueue v => do
    let (b, cq') ← Enqueue cq v
    pure (if b then .enqOk v else .enqFull v, cq')
  | .dequeue => do
    let (x, cq') ← Dequeue cq
    pure (if IsEmpty cq then .deqEmpty x else .deqOk x, cq')

/-- Perform a sequence of calls from left to right. -/
def run {α : Type} (cq : CircularQueue α) : List (Op α) → Except Panic (List (Event α) × CircularQueue α)
  | [] => pure ([], cq)
  | op :: ops => do
    let (e, cq') ← step cq op
    let (es, cq'') ← run cq' ops
    pure (e :: es, cq'')

/-- Build a queue with `NewCircularQueue(capacity)` and perform `ops` on it. -/
def runNew {α : Type} (capacity : Int) (ops : List (Op α)) :
    Except Panic (List (Event α) × CircularQueue α) := do
  let cq ← NewCircularQueue capacity
  run cq ops

/-! ## Bookkeeping over a recorded sequence of calls -/

/-- Elements held after the events `es`, oldest first, when `l` was held
before: a successful `Enqueue(v)` adds `v` at the end, a `Dequeue()` on a
non-empty queue removes the oldest. -/
def held {α : Type} (l : List (Option α)) : List (Event α) → List (Option α)
  | [] => l
  | .enqOk v :: es => held (l ++ [v]) es
  | .deqOk _ :: es => held l.tail es
  | .enqFull _ :: es => held l es
  | .deqEmpty _ :: es => held l es

/-- Number of `Enqueue` calls that returned `true`. -/
def enqOkCount {α : Type} : List (Event α) → Nat
  | [] => 0
  | .enqOk _ :: es => enqOkCount es + 1
  | _ :: es => enqOkCount es

/-- Number of `Dequeue` calls made on a non-empty queue. -/
def deqOkCount {α : Type} : List (Event α) → Nat
  | [] => 0
  | .deqOk _ :: es => deqOkCount es + 1
  | _ :: es => deqOkCount es

/-- Successful enqueues minus successful dequeues. -/
def heldCount {α : Type} (es : List (Event α)) : Int :=
  (enqOkCount es : Int) - (deqOkCount es : Int)

/-- Value passed to the most recent `Enqueue` that returned `true`, `prev`
when there was none among `es`. -/
def lastEnqueued {α : Type} (prev : Option (Option α)) : List (Event α) → Option (Option α)
  | [] => prev
  | .enqOk v :: es => lastEnqueued (some v) es
  | _ :: es => lastEnqueued prev es

/-! ## Abstract bounded FIFO

The list-based queue bounded by `c`: `Enqueue` appends and returns `true` iff
the length is below `c`; `Dequeue` removes and returns the head, or `nil` when
the list is empty. -/

/-- One call on the abstract bounded FIFO holding `l`. -/
def absStep {α : Type} (c : Int) (l : List (Option α)) : Op α → Event α × List (Option α)
  | .enqueue v => if (l.length : Int) < c then (.enqOk v, l ++ [v]) else (.enqFull v, l)
  | .dequeue =>
    match l with
    | [] => (.deqEmpty none, [])
    | x :: l' => (.deqOk x, l')

/-- A sequence of calls on the abstract bounded FIFO holding `l`. -/
def absRun {α : Type} (c : Int) (l : List (Option α)) : List (Op α) → List (Event α) × List (Option α)
  | [] => ([], l)
  | op :: ops => ((absStep c l op).1 :: (absRun c (absStep c l op).2 ops).1,
      (absRun c (absStep c l op).2 ops).2)

/-! ## Representation invariant -/

/-- Slot that holds the `i`-th oldest element when the oldest is in slot `f`:
`f + i` walking forward with wraparound at `c`. -/
def slot (c f i : Int) : Int :=
  if f + i < c then f + i else f + i - c

/-- The queue `q` of capacity `c` holds exactly the elements `l`, oldest
first. -/
structure Rep {α : Type} (c : Int) (q : CircularQueue α) (l : List (Option α)) : Prop where
  cpos : 1 ≤ c
  cmax : c ≤ maxInt
  hlen : (q.data.length : Int) = c
  hsize : (l.length : Int) ≤ c
  hempty : l = [] → q.front = -1 ∧ q.rear = -1
  hfront : l ≠ [] → 0 ≤ q.front ∧ q.front < c
  hrear : l ≠ [] → q.rear = slot c q.front ((l.length : Int) - 1)
  hdata : ∀ i : Nat, i < l.length → q.data[(slot c q.front (i : Int)).toNat]? = l[i]?

/-! ## Read-only calls -/

/-- One of the four read-only methods `IsEmpty`, `IsFull`, `Front`, `Rear`. -/
inductive ReadOp where
  | isEmpty
  | isFull
  | front
  | rear
  deriving DecidableEq, Repr

/-- What a read-only method returns: a boolean (`IsEmpty`, `IsFull`) or an
index with a value (`Front`, `Rear`). -/
inductive ReadResult (α : Type) where
  | bool (b : Bool)
  | peek (index : Int) (value : Option α)
  deriving DecidableEq, Repr

/-- Perform one read-only call: its outcome (result or panic) and the state
after the call. None of the four methods (lines 26-33 and 76-97) assigns to a
field of the receiver or to a slot of `data`. -/
def read {α : Type} (cq : CircularQueue α) :
    ReadOp → Except Panic (ReadResult α) × CircularQueue α
  | .isEmpty => (.ok (.bool (IsEmpty cq)), cq)
  | .isFull => ((IsFull cq).map ReadResult.bool, cq)
  | .front => ((Front cq).map (fun r => ReadResult.peek r.1 r.2), cq)
  | .rear => ((Rear cq).map (fun r => ReadResult.peek r.1 r.2), cq)

/-- Perform read-only calls one after the other, each on the state the
previous one left (a panic is taken as recovered by the caller). -/
def reads {α : Type} (cq : CircularQueue α) :
    List ReadOp → List (Except Panic (ReadResult α)) × CircularQueue α
  | [] => ([], cq)
  | r :: rs => ((read cq r).1 :: (reads (read cq r).2 rs).1, (reads (read cq r).2 rs).2)

/-! ## Occupied slots -/

/-- Walk forward from slot `i` up to slot `rear` inclusive, stepping with
`(index+1) mod len(data)`, over at most `fuel` slots. -/
def walkFrom {α : Type} (data : List (Option α)) (rear : Int) : Nat → Int → List (Option α)
  | 0, _ => []
  | fuel + 1, i =>
    data.getD i.toNat none ::
      (if i = rear then [] else walkFrom data rear fuel ((i + 1) % len data))

/-- The slots from `front` to `rear` walking forward modulo the capacity; no
slot when `front` is the sentinel -1. -/
def occupied {α : Type} (cq : CircularQueue α) : List (Option α) :=
  if cq.front = -1 then [] else walkFrom cq.data cq.rear cq.data.length cq.front

/-! ## The mutex `mu` -/

/-- A `CircularQueue` together with the state of its field `mu`: `locked` is
true while some call holds the mutex. -/
structure Guarded (α : Type) where
  cq : CircularQueue α
  locked : Bool
  deriving DecidableEq, Repr

/-- Outcome of a method call on a queue with its mutex:
* `blocked`: the call waits in `mu.Lock()` because the mutex is held;
* `returned r g`: the call returned `r` and left queue and mutex as `g`;
* `panicked p locked`: the call panicked with `p` and left the mutex in state
  `locked` (the fields at the panic are not tracked). -/
inductive Outcome (ρ α : Type) where
  | blocked
  | returned (result : ρ) (after : Guarded α)
  | panicked (p : Panic) (locked : Bool)
  deriving DecidableEq, Repr

/-- Go's `mu.Lock()` on a `sync.Mutex`, which is not reentrant: `none` when the
mutex is held (the caller waits), otherwise the mutex becomes held. -/
def Guarded.Lock {α : Type} (g : Guarded α) : Option (Guarded α) :=
  if g.locked then none else some { g with locked := true }

/-- Go's `mu.Unlock()`, called with the mutex held. -/
def Guarded.Unlock {α : Type} (g : Guarded α) : Guarded α :=
  { g with locked := false }

/-- The prologue `cq.mu.Lock(); defer cq.mu.Unlock()` (lines 37-38, 55-56,
77-78 and 89-90) around a method body: the body runs on the fields while the
mutex is held, and the deferred `Unlock` runs when the body returns and when it
panics. -/
def Guarded.withLock {ρ α : Type} (g : Guarded α)
    (body : CircularQueue α → Except Panic (ρ × CircularQueue α)) : Outcome ρ α :=
  match g.Lock with
  | none => .blocked
  | some g1 =>
    match body g1.cq with
    | .ok (r, cq') => .returned r (Guarded.Unlock { g1 with cq := cq' })
    | .error p => .panicked p (Guarded.Unlock g1).locked

/-- Method `IsEmpty` (lines 26-28) with the mutex in view: it has no `Lock`
call. -/
def Guarded.IsEmpty {α : Type} (g : Guarded α) : Outcome Bool α :=
  .returned (CircularQueueGo.IsEmpty g.cq) g

/-- Method `IsFull` (lines 31-33) with the mutex in view: it has no `Lock`
call. -/
def Guarded.IsFull {α : Type} (g : Guarded α) : Outcome Bool α :=
  match CircularQueueGo.IsFull g.cq with
  | .ok b => .returned b g
  | .error p => .panicked p g.locked

/-- Method `Enqueue` (lines 36-51) with its `Lock`/`defer Unlock`. -/
def Guarded.Enqueue {α : Type} (g : Guarded α) (value : Option α) : Outcome Bool α :=
  g.withLock (fun cq => CircularQueueGo.Enqueue cq value)

/-- Method `Dequeue` (lines 54-73) with its `Lock`/`defer Unlock`. -/
def Guarded.Dequeue {α : Type} (g : Guarded α) : Outcome (Option α) α :=
  g.withLock (fun cq => CircularQueueGo.Dequeue cq)

/-- Method `Front` (lines 76-85) with its `Lock`/`defer Unlock`. -/
def Guarded.Front {α : Type} (g : Guarded α) : Outcome (Int × Option α) α :=
  g.withLock (fun cq => (CircularQueueGo.Front cq).map (fun r => (r, cq)))

/-- Method `Rear` (lines 88-97) with its `Lock`/`defer Unlock`. -/
def Guarded.Rear {α : Type} (g : Guarded α) : Outcome (Int × Option α) α :=
  g.withLock (fun cq => (CircularQueueGo.Rear cq).map (fun r => (r, cq)))

/-- The fields of the receiver inside `Enqueue` on the not-full path, after
lines 44-46 (`if cq.IsEmpty() { cq.front = 0 }`) and before line 48 assigns
`rear`. -/
def enqueueAfterFrontUpdate {α : Type} (cq : CircularQueue α) : CircularQueue α :=
  if IsEmpty cq then { cq with front := 0 } else cq

/-! ## Arithmetic of the source's index updates -/

theorem wrapInt_of_range (x : Int) (h1 : -9223372036854775808 ≤ x)
    (h2 : x ≤ 9223372036854775807) : wrapInt x = x := by
  unfold wrapInt
  omega

theorem goMod_of_le (a c : Int) (h0 : 0 ≤ a) (h1 : a ≤ c) (hc : 1 ≤ c) :
    goMod a c = .ok (if a < c then a else 0) := by
  unfold goMod
  have hc0 : c ≠ 0 := by omega
  rw [if_neg hc0]
  by_cases h : a < c
  · rw [if_pos h, Int.tmod_eq_of_lt h0 h]
  · have : a = c := by omega
    subst this
    rw [if_neg h, Int.tmod_self]

/-! ## The operations on a represented queue -/

theorem Rep.rear_range {α : Type} {c : Int} {q : CircularQueue α} {l : List (Option α)}
    (h : Rep c q l) : -1 ≤ q.rear ∧ q.rear < c := by
  by_cases hl : l = []
  · have := h.hempty hl
    have := h.cpos
    omega
  · have hf := h.hfront hl
    have hr := h.hrear hl
    have hs := h.hsize
    have hpos : 0 < l.length := List.length_pos.mpr hl
    unfold slot at hr
    split at hr <;> omega

theorem Rep.next_rear {α : Type} {c : Int} {q : CircularQueue α} {l : List (Option α)}
    (h : Rep c q l) :
    goMod (wrapInt (q.rear + 1)) (len q.data)
      = .ok (if q.rear + 1 < c then q.rear + 1 else 0) := by
  have hr := h.rear_range
  have hc := h.cmax
  unfold maxInt at hc
  rw [wrapInt_of_range _ (by omega) (by omega)]
  unfold len
  rw [h.hlen]
  exact goMod_of_le _ _ (by omega) (by omega) h.cpos

theorem Rep.isFull {α : Type} {c : Int} {q : CircularQueue α} {l : List (Option α)}
    (h : Rep c q l) : IsFull q = .ok (decide ((l.length : Int) = c)) := by
  unfold IsFull
  rw [h.next_rear]
  have hc := h.cpos
  by_cases hl : l = []
  · have he := h.hempty hl
    subst hl
    simp [bind, Except.bind, pure, Except.pure, he.1, he.2]
    omega
  · have hf := h.hfront hl
    have hr := h.hrear hl
    have hs := h.hsize
    have hpos : 0 < l.length := List.length_pos.mpr hl
    simp only [bind, Except.bind, pure, Except.pure]
    congr 1
    unfold slot at hr
    rw [Bool.eq_iff_iff]
    simp only [beq_iff_eq, decide_eq_true_eq]
    split at hr <;> split <;> omega

theorem Rep.isEmpty {α : Type} {c : Int} {q : CircularQueue α} {l : List (Option α)}
    (h : Rep c q l) : IsEmpty q = l.isEmpty := by
  unfold IsEmpty
  by_cases hl : l = []
  · simp [hl, (h.hempty hl).1]
  · have hf := h.hfront hl
    have hne : l.isEmpty = false := by simpa using hl
    rw [hne, beq_eq_false_iff_ne]
    omega

theorem Rep.enqueue_full {α : Type} {c : Int} {q : CircularQueue α} {l : List (Option α)}
    (h : Rep c q l) (hn : (l.length : Int) = c) (v : Option α) :
    Enqueue q v = .ok (false, q) := by
  unfold Enqueue
  rw [h.isFull]
  simp [bind, Except.bind, pure, Except.pure, hn]

theorem Rep.enqueue_nil {α : Type} {c : Int} {q : CircularQueue α}
    (h : Rep c q []) (v : Option α) :
    Enqueue q v = .ok (true, { data := q.data.set 0 v, front := 0, rear := 0 }) ∧
      Rep c { data := q.data.set 0 v, front := 0, rear := 0 } [v] := by
  have hc := h.cpos
  have he := h.hempty rfl
  have hlen := h.hlen
  have hnr := h.next_rear
  have hpos : 0 < q.data.length := by omega
  constructor
  · unfold Enqueue
    rw [h.isFull, h.isEmpty]
    have hne : ¬ (((([] : List (Option α)).length : Nat) : Int) = c) := by
      simp only [List.length_nil, Nat.cast_zero]; omega
    simp only [bind, Except.bind, pure, Except.pure, hne, decide_False, List.isEmpty_nil,
      if_true, Bool.false_eq_true, if_false]
    rw [hnr]
    simp [he.2, sliceSet, hc, hpos]
  · refine ⟨h.cpos, h.cmax, ?_, ?_, ?_, ?_, ?_, ?_⟩
    · simpa using hlen
    · simpa using hc
    · intro hx; simp at hx
    · intro _; simp; omega
    · intro _; simp [slot]; omega
    · intro i hi
      have hi0 : i = 0 := by simpa using hi
      subst hi0
      have : slot c 0 0 = 0 := by simp [slot]; omega
      simp [this, hpos]

theorem Rep.enqueue_cons {α : Type} {c : Int} {q : CircularQueue α} {l : List (Option α)}
    (h : Rep c q l) (hl : l ≠ []) (hn : (l.length : Int) < c) (v : Option α) :
    Enqueue q v = .ok (true,
        { data := q.data.set (slot c q.front (l.length : Int)).toNat v, front := q.front,
          rear := slot c q.front (l.length : Int) }) ∧
      Rep c { data := q.data.set (slot c q.front (l.length : Int)).toNat v, front := q.front,
              rear := slot c q.front (l.length : Int) } (l ++ [v]) := by
  have hc := h.cpos
  have hf := h.hfront hl
  have hr := h.hrear hl
  have hlen := h.hlen
  have hnr := h.next_rear
  have hpos : 0 < l.length := List.length_pos.mpr hl
  have hnext : (if q.rear + 1 < c then q.rear + 1 else 0) = slot c q.front (l.length : Int) := by
    unfold slot at hr ⊢
    split at hr <;> split <;> split <;> omega
  have hrange : 0 ≤ slot c q.front (l.length : Int) ∧ slot c q.front (l.length : Int) < c := by
    unfold slot
    split <;> omega
  constructor
  · unfold Enqueue
    rw [h.isFull, h.isEmpty]
    have hne : ¬ ((l.length : Int) = c) := by omega
    have hie : l.isEmpty = false := by simpa using hl
    simp only [bind, Except.bind, pure, Except.pure, hne, decide_False, hie,
      Bool.false_eq_true, if_false]
    rw [hnr, hnext]
    have h1 : ¬ slot c q.front (l.length : Int) < 0 := by omega
    have h2 : (slot c q.front (l.length : Int)).toNat < q.data.length := by omega
    simp [sliceSet, h1, h2]
  · refine ⟨h.cpos, h.cmax, ?_, ?_, ?_, ?_, ?_, ?_⟩
    · simpa using hlen
    · simp only [List.length_append, List.length_singleton, Nat.cast_add, Nat.cast_one]; omega
    · intro hx; simp at hx
    · intro _; exact hf
    · intro _
      simp only [List.length_append, List.length_singleton, Nat.cast_add, Nat.cast_one]
      congr 1
      omega
    · intro i hi
      simp only [List.length_append, List.length_singleton] at hi
      by_cases hil : i < l.length
      · have hd := h.hdata i hil
        have hne : (slot c q.front (l.length : Int)).toNat ≠ (slot c q.front (i : Int)).toNat := by
          unfold slot
          split <;> split <;> omega
        simp only []
        rw [List.getElem?_set_ne hne, List.getElem?_append_left hil]
        exact hd
      · have hi2 : i = l.length := by omega
        subst hi2
        have h2 : (slot c q.front (l.length : Int)).toNat < q.data.length := by omega
        simp only []
        rw [List.getElem?_set_self h2, List.getElem?_concat_length]

/-- A successful `Enqueue` on a represented queue appends the value. -/
theorem Rep.enqueue {α : Type} {c : Int} {q : CircularQueue α} {l : List (Option α)}
    (h : Rep c q l) (hn : (l.length : Int) < c) (v : Option α) :
    ∃ q', Enqueue q v = .ok (true, q') ∧ Rep c q' (l ++ [v]) := by
  by_cases hl : l = []
  · subst hl
    exact ⟨_, h.enqueue_nil v⟩
  · exact ⟨_, h.enqueue_cons hl hn v⟩

theorem Rep.dequeue_nil {α : Type} {c : Int} {q : CircularQueue α}
    (h : Rep c q []) : Dequeue q = .ok (none, q) := by
  unfold Dequeue
  rw [h.isEmpty]
  simp [pure, Except.pure]

theorem Rep.sliceGet_front {α : Type} {c : Int} {q : CircularQueue α} {x : Option α}
    {l : List (Option α)} (h : Rep c q (x :: l)) : sliceGet q.data q.front = .ok x := by
  have hf := h.hfront (by simp)
  have hd := h.hdata 0 (by simp)
  have hs : slot c q.front ((0 : Nat) : Int) = q.front := by
    unfold slot
    simp only [Nat.cast_zero, add_zero]
    rw [if_pos hf.2]
  rw [hs] at hd
  unfold sliceGet
  have h1 : ¬ q.front < 0 := by omega
  rw [if_neg h1, hd]
  simp

theorem Rep.dequeue_single {α : Type} {c : Int} {q : CircularQueue α} {x : Option α}
    (h : Rep c q [x]) :
    Dequeue q = .ok (x, { data := q.data, front := -1, rear := -1 }) ∧
      Rep c { data := q.data, front := -1, rear := -1 } [] := by
  have hf := h.hfront (by simp)
  have hr := h.hrear (by simp)
  have hfr : q.front = q.rear := by
    unfold slot at hr
    simp only [List.length_singleton, Nat.cast_one, sub_self, add_zero] at hr
    rw [if_pos hf.2] at hr
    exact hr.symm
  constructor
  · unfold Dequeue
    rw [h.isEmpty, h.sliceGet_front]
    simp [bind, Except.bind, pure, Except.pure, hfr]
  · refine ⟨h.cpos, h.cmax, h.hlen, ?_, ?_, ?_, ?_, ?_⟩
    · have := h.cpos
      simp only [List.length_nil, Nat.cast_zero]; omega
    · intro _; exact ⟨rfl, rfl⟩
    · intro hx; exact absurd rfl hx
    · intro hx; exact absurd rfl hx
    · intro i hi; simp at hi

theorem Rep.dequeue_more {α : Type} {c : Int} {q : CircularQueue α} {x y : Option α}
    {l : List (Option α)} (h : Rep c q (x :: y :: l)) :
    Dequeue q = .ok (x, { data := q.data, front := slot c q.front 1, rear := q.rear }) ∧
      Rep c { data := q.data, front := slot c q.front 1, rear := q.rear } (y :: l) := by
  have hc := h.cpos
  have hcm := h.cmax
  have hf := h.hfront (by simp)
  have hr := h.hrear (by simp)
  have hs := h.hsize
  have hlen := h.hlen
  simp only [List.length_cons, Nat.cast_add, Nat.cast_one] at hr hs
  have hfr : ¬ q.front = q.rear := by
    unfold slot at hr
    split at hr <;> omega
  have hnf : goMod (wrapInt (q.front + 1)) (len q.data) = .ok (slot c q.front 1) := by
    unfold maxInt at hcm
    rw [wrapInt_of_range _ (by omega) (by omega)]
    unfold len
    rw [hlen, goMod_of_le _ _ (by omega) (by omega) hc]
    congr 1
    unfold slot
    split <;> omega
  have hrange : 0 ≤ slot c q.front 1 ∧ slot c q.front 1 < c := by
    unfold slot
    split <;> omega
  constructor
  · unfold Dequeue
    rw [h.isEmpty, h.sliceGet_front]
    simp [bind, Except.bind, pure, Except.pure, hfr, hnf]
  · refine ⟨h.cpos, h.cmax, hlen, ?_, ?_, ?_, ?_, ?_⟩
    · simp only [List.length_cons, Nat.cast_add, Nat.cast_one]; omega
    · intro hx; simp at hx
    · intro _; exact hrange
    · intro _
      simp only [List.length_cons, Nat.cast_add, Nat.cast_one]
      rw [hr]
      unfold slot
      split <;> split <;> split <;> omega
    · intro i hi
      have hd := h.hdata (i + 1) (by simpa using hi)
      rw [List.getElem?_cons_succ] at hd
      have hi2 : (i : Int) + 2 ≤ c := by
        simp only [List.length_cons] at hi
        omega
      have hsl : slot c (slot c q.front 1) (i : Int) = slot c q.front ((i + 1 : Nat) : Int) := by
        unfold slot
        push_cast
        split <;> split <;> split <;> omega
      simp only []
      rw [hsl]
      exact hd

/-- A `Dequeue` on a represented non-empty queue returns and removes the
oldest element. -/
theorem Rep.dequeue {α : Type} {c : Int} {q : CircularQueue α} {x : Option α}
    {l : List (Option α)} (h : Rep c q (x :: l)) :
    ∃ q', Dequeue q = .ok (x, q') ∧ Rep c q' l := by
  cases l with
  | nil => exact ⟨_, h.dequeue_single⟩
  | cons y l => exact ⟨_, h.dequeue_more⟩

/-! ## Runs on a represented queue follow the abstract FIFO -/

theorem Rep.new (α : Type) (c : Int) (h1 : 1 ≤ c) (h2 : c ≤ maxInt) :
    (NewCircularQueue c : Except Panic (CircularQueue α))
        = .ok { data := List.replicate c.toNat none, front := -1, rear := -1 } ∧
      Rep c ({ data := List.replicate c.toNat none, front := -1, rear := -1 } : CircularQueue α) [] := by
  constructor
  · unfold NewCircularQueue
    rw [if_neg (by omega)]
  · refine ⟨h1, h2, ?_, ?_, ?_, ?_, ?_, ?_⟩
    · simp only [List.length_replicate]; omega
    · simp only [List.length_nil, Nat.cast_zero]; omega
    · intro _; exact ⟨rfl, rfl⟩
    · intro hx; exact absurd rfl hx
    · intro hx; exact absurd rfl hx
    · intro i hi; simp at hi

theorem Rep.step {α : Type} {c : Int} {q : CircularQueue α} {l : List (Option α)}
    (h : Rep c q l) (op : Op α) :
    ∃ q', step q op = .ok ((absStep c l op).1, q') ∧ Rep c q' (absStep c l op).2 := by
  cases op with
  | enqueue v =>
    by_cases hn : (l.length : Int) < c
    · obtain ⟨q', hq, hr⟩ := h.enqueue hn v
      refine ⟨q', ?_, ?_⟩
      · simp [CircularQueueGo.step, absStep, hq, hn, bind, Except.bind, pure, Except.pure]
      · simpa [absStep, hn] using hr
    · have hs := h.hsize
      have heq : (l.length : Int) = c := by omega
      refine ⟨q, ?_, ?_⟩
      · simp [CircularQueueGo.step, absStep, h.enqueue_full heq v, hn, bind, Except.bind, pure,
          Except.pure]
      · simpa [absStep, hn] using h
  | dequeue =>
    cases l with
    | nil =>
      refine ⟨q, ?_, ?_⟩
      · simp [CircularQueueGo.step, absStep, h.dequeue_nil, h.isEmpty, bind, Except.bind, pure,
          Except.pure]
      · simpa [absStep] using h
    | cons x l =>
      obtain ⟨q', hq, hr⟩ := h.dequeue
      refine ⟨q', ?_, ?_⟩
      · simp [CircularQueueGo.step, absStep, hq, h.isEmpty, bind, Except.bind, pure, Except.pure]
      · simpa [absStep] using hr

theorem Rep.run {α : Type} {c : Int} (ops : List (Op α)) :
    ∀ {q : CircularQueue α} {l : List (Option α)}, Rep c q l →
      ∃ q', run q ops = .ok ((absRun c l ops).1, q') ∧ Rep c q' (absRun c l ops).2 := by
  induction ops with
  | nil =>
    intro q l h
    exact ⟨q, rfl, h⟩
  | cons op ops ih =>
    intro q l h
    obtain ⟨q1, hq1, hr1⟩ := h.step op
    obtain ⟨q2, hq2, hr2⟩ := ih hr1
    refine ⟨q2, ?_, ?_⟩
    · simp [CircularQueueGo.run, absRun, hq1, hq2, bind, Except.bind, pure, Except.pure]
    · simpa [absRun] using hr2

theorem run_append {α : Type} (a b : List (Op α)) :
    ∀ q : CircularQueue α, run q (a ++ b) = (do
      let r ← run q a
      let r2 ← run r.2 b
      pure (r.1 ++ r2.1, r2.2)) := by
  induction a with
  | nil =>
    intro q
    simp only [List.nil_append, CircularQueueGo.run, bind, Except.bind, pure, Except.pure]
    cases run q b <;> rfl
  | cons op a ih =>
    intro q
    rw [List.cons_append]
    simp only [CircularQueueGo.run, bind, Except.bind, pure, Except.pure]
    cases step q op with
    | error e => rfl
    | ok r =>
      simp only []
      rw [ih r.2]
      simp only [bind, Except.bind, pure, Except.pure]
      cases run r.2 a with
      | error e => rfl
      | ok r1 =>
        simp only []
        cases run r1.2 b <;> rfl

/-! ## Facts about the abstract FIFO -/

theorem absRun_append {α : Type} (c : Int) (a b : List (Op α)) :
    ∀ l : List (Option α), absRun c l (a ++ b)
      = ((absRun c l a).1 ++ (absRun c (absRun c l a).2 b).1, (absRun c (absRun c l a).2 b).2) := by
  induction a with
  | nil => intro l; rfl
  | cons op a ih =>
    intro l
    have h := ih (absStep c l op).2
    rw [List.cons_append]
    simp only [absRun]
    rw [h]
    rfl

theorem absRun_fill {α : Type} (c : Int) (vs : List (Option α)) :
    ∀ l : List (Option α), (l.length : Int) + (vs.length : Int) ≤ c →
      absRun c l (vs.map Op.enqueue) = (vs.map Event.enqOk, l ++ vs) := by
  induction vs with
  | nil => intro l _; simp [absRun]
  | cons v vs ih =>
    intro l hl
    simp only [List.length_cons, Nat.cast_add, Nat.cast_one] at hl
    have hlt : (l.length : Int) < c := by omega
    have hstep : absStep c l (Op.enqueue v) = (Event.enqOk v, l ++ [v]) := by
      simp [absStep, hlt]
    have hl2 : ((l ++ [v]).length : Int) + (vs.length : Int) ≤ c := by
      simp only [List.length_append, List.length_singleton, Nat.cast_add, Nat.cast_one]
      omega
    simp only [List.map_cons, absRun, hstep, ih (l ++ [v]) hl2, List.append_assoc,
      List.singleton_append]

theorem absRun_drain {α : Type} (c : Int) :
    ∀ l : List (Option α),
      absRun c l (List.replicate l.length (Op.dequeue : Op α)) = (l.map Event.deqOk, []) := by
  intro l
  induction l with
  | nil => simp [absRun]
  | cons x l ih =>
    simp only [List.length_cons, List.replicate_succ, absRun, absStep, ih, List.map_cons]

theorem absRun_held {α : Type} (c : Int) (ops : List (Op α)) :
    ∀ l : List (Option α), (absRun c l ops).2 = held l (absRun c l ops).1 := by
  induction ops with
  | nil => intro l; rfl
  | cons op ops ih =>
    intro l
    cases op with
    | enqueue v =>
      by_cases hn : (l.length : Int) < c
      · simp only [absRun, absStep, hn, if_true, held]
        exact ih _
      · simp only [absRun, absStep, hn, if_false, held]
        exact ih _
    | dequeue =>
      cases l with
      | nil =>
        simp only [absRun, absStep, held]
        exact ih _
      | cons x l =>
        simp only [absRun, absStep, held, List.tail_cons]
        exact ih _

theorem absRun_count {α : Type} (c : Int) (ops : List (Op α)) :
    ∀ l : List (Option α),
      ((absRun c l ops).2.length : Int) = (l.length : Int) + heldCount (absRun c l ops).1 := by
  induction ops with
  | nil => intro l; simp [absRun, heldCount, enqOkCount, deqOkCount]
  | cons op ops ih =>
    intro l
    cases op with
    | enqueue v =>
      by_cases hn : (l.length : Int) < c
      · have := ih (l ++ [v])
        simp only [absRun, absStep, hn, if_true, heldCount, enqOkCount, deqOkCount,
          List.length_append, List.length_singleton, Nat.cast_add, Nat.cast_one] at this ⊢
        omega
      · have := ih l
        simp only [absRun, absStep, hn, if_false, heldCount, enqOkCount, deqOkCount] at this ⊢
        omega
    | dequeue =>
      cases l with
      | nil =>
        have := ih ([] : List (Option α))
        simp only [absRun, absStep, heldCount, enqOkCount, deqOkCount] at this ⊢
        omega
      | cons x l =>
        have := ih l
        simp only [absRun, absStep, heldCount, enqOkCount, deqOkCount, List.length_cons,
          Nat.cast_add, Nat.cast_one] at this ⊢
        omega

theorem absRun_last {α : Type} (c : Int) (ops : List (Op α)) :
    ∀ (l : List (Option α)) (prev : Option (Option α)),
      (l ≠ [] → l.getLast? = prev) → (absRun c l ops).2 ≠ [] →
        (absRun c l ops).2.getLast? = lastEnqueued prev (absRun c l ops).1 := by
  induction ops with
  | nil =>
    intro l prev hp hne
    simpa [absRun, lastEnqueued] using hp hne
  | cons op ops ih =>
    intro l prev hp hne
    cases op with
    | enqueue v =>
      by_cases hn : (l.length : Int) < c
      · simp only [absRun, absStep, hn, if_true, lastEnqueued] at hne ⊢
        exact ih (l ++ [v]) (some v) (fun _ => by simp) hne
      · simp only [absRun, absStep, hn, if_false, lastEnqueued] at hne ⊢
        exact ih l prev hp hne
    | dequeue =>
      cases l with
      | nil =>
        simp only [absRun, absStep, lastEnqueued] at hne ⊢
        exact ih [] prev hp hne
      | cons x l =>
        simp only [absRun, absStep, lastEnqueued] at hne ⊢
        refine ih l prev ?_ hne
        intro hl
        have := hp (by simp)
        rw [← this]
        cases l with
        | nil => exact absurd rfl hl
        | cons y l => simp [List.getLast?_cons_cons]

/-! ## Peeking at a represented queue -/

theorem Rep.front_nil {α : Type} {c : Int} {q : CircularQueue α} (h : Rep c q []) :
    Front q = .ok (-1, none) ∧ Rear q = .ok (-1, none) := by
  have he := h.hempty rfl
  constructor
  · unfold Front
    rw [h.isEmpty]
    simp [pure, Except.pure, he.1]
  · unfold Rear
    rw [h.isEmpty]
    simp [pure, Except.pure, he.2]

theorem Rep.front_cons {α : Type} {c : Int} {q : CircularQueue α} {x : Option α}
    {l : List (Option α)} (h : Rep c q (x :: l)) : Front q = .ok (q.front, x) := by
  unfold Front
  rw [h.isEmpty, h.sliceGet_front]
  simp [bind, Except.bind, pure, Except.pure]

theorem Rep.rear_ne {α : Type} {c : Int} {q : CircularQueue α} {l : List (Option α)}
    (h : Rep c q l) (hl : l ≠ []) :
    ∃ y, l.getLast? = some y ∧ Rear q = .ok (q.rear, y) := by
  have hpos : 0 < l.length := List.length_pos.mpr hl
  have hr := h.hrear hl
  have hrr := h.rear_range
  have hf := h.hfront hl
  have hd := h.hdata (l.length - 1) (by omega)
  have hcast : ((l.length - 1 : Nat) : Int) = (l.length : Int) - 1 := by omega
  rw [hcast, ← hr] at hd
  have hlast : l.getLast? = l[l.length - 1]? := List.getLast?_eq_getElem? l
  have hsome : l[l.length - 1]? = some (l[l.length - 1]) := List.getElem?_eq_getElem (by omega)
  refine ⟨l[l.length - 1], by rw [hlast, hsome], ?_⟩
  have hie : l.isEmpty = false := by simpa using hl
  have hge : ¬ q.rear < 0 := by
    unfold slot at hr
    split at hr <;> omega
  unfold Rear sliceGet
  rw [h.isEmpty, hie, if_neg hge, hd, hsome]
  simp [bind, Except.bind, pure, Except.pure]

theorem Rep.runNew {α : Type} (c : Int) (h1 : 1 ≤ c) (h2 : c ≤ maxInt) (ops : List (Op α)) :
    ∃ q, runNew c ops = .ok ((absRun c [] ops).1, q) ∧ Rep c q (absRun c [] ops).2 := by
  obtain ⟨hnew, hrep⟩ := Rep.new α c h1 h2
  obtain ⟨q, hq, hr⟩ := Rep.run ops hrep
  refine ⟨q, ?_, hr⟩
  unfold CircularQueueGo.runNew
  rw [hnew]
  exact hq

theorem Rep.index_range {α : Type} {c : Int} {q : CircularQueue α} {l : List (Option α)}
    (h : Rep c q l) (hl : l ≠ []) :
    0 ≤ q.front ∧ q.front < c ∧ 0 ≤ q.rear ∧ q.rear < c := by
  have hf := h.hfront hl
  have hr := h.hrear hl
  have hs := h.hsize
  have hpos : 0 < l.length := List.length_pos.mpr hl
  unfold slot at hr
  split at hr <;> omega

theorem runNew_held_count {α : Type} (c : Int) (h1 : 1 ≤ c) (h2 : c ≤ maxInt) (ops : List (Op α)) :
    ∃ es q l, runNew c ops = .ok (es, q) ∧ Rep c q l ∧ (l.length : Int) = heldCount es ∧
      l = held [] es ∧ (es, l) = absRun c [] ops := by
  obtain ⟨q, hq, hr⟩ := Rep.runNew c h1 h2 ops
  have hcount := absRun_count c ops ([] : List (Option α))
  simp only [List.length_nil, Nat.cast_zero, zero_add] at hcount
  exact ⟨_, q, _, hq, hr, hcount, absRun_held c ops [], rfl⟩

theorem Rep.walk {α : Type} {c : Int} (l : List (Option α)) :
    ∀ (q : CircularQueue α) (fuel : Nat), Rep c q l → l ≠ [] → l.length ≤ fuel →
      walkFrom q.data q.rear fuel q.front = l := by
  induction l with
  | nil => intro q fuel _ hl; exact absurd rfl hl
  | cons x l ih =>
    intro q fuel h _ hfuel
    have hf := h.hfront (by simp)
    have hd := h.hdata 0 (by simp)
    have hs0 : slot c q.front ((0 : Nat) : Int) = q.front := by
      unfold slot
      simp only [Nat.cast_zero, add_zero]
      rw [if_pos hf.2]
    rw [hs0] at hd
    have hx : q.data.getD q.front.toNat none = x := by
      rw [List.getD_eq_getElem?_getD, hd]
      simp
    obtain ⟨fuel', rfl⟩ : ∃ k, fuel = k + 1 := ⟨fuel - 1, by simp only [List.length_cons] at hfuel; omega⟩
    cases l with
    | nil =>
      have hr := h.hrear (by simp)
      have hfr : q.front = q.rear := by
        unfold slot at hr
        simp only [List.length_singleton, Nat.cast_one, sub_self, add_zero] at hr
        rw [if_pos hf.2] at hr
        exact hr.symm
      unfold walkFrom
      rw [if_pos hfr, hx]
    | cons y l' =>
      obtain ⟨_, h'⟩ := h.dequeue_more
      have hr := h.hrear (by simp)
      have hs := h.hsize
      simp only [List.length_cons, Nat.cast_add, Nat.cast_one] at hr hs
      have hfr : ¬ q.front = q.rear := by
        unfold slot at hr
        split at hr <;> omega
      have hnext : (q.front + 1) % len q.data = slot c q.front 1 := by
        unfold len
        rw [h.hlen]
        unfold slot
        by_cases hlt : q.front + 1 < c
        · rw [if_pos hlt, Int.emod_eq_of_lt (by omega) hlt]
        · have hc : q.front + 1 = c := by omega
          rw [if_neg hlt, hc, Int.emod_self]
          omega
      have hrec := ih { data := q.data, front := slot c q.front 1, rear := q.rear } fuel' h'
        (by simp) (by simp only [List.length_cons] at hfuel ⊢; omega)
      simp only [walkFrom, hx, hfr, if_false, hnext]
      simp only [] at hrec
      rw [hrec]

theorem Rep.occupied {α : Type} {c : Int} {q : CircularQueue α} {l : List (Option α)}
    (h : Rep c q l) : occupied q = l := by
  unfold CircularQueueGo.occupied
  by_cases hl : l = []
  · rw [if_pos (h.hempty hl).1, hl]
  · have hf := h.hfront hl
    have hs := h.hsize
    have hlen := h.hlen
    rw [if_neg (by omega)]
    exact Rep.walk l q _ h hl (by omega)

theorem absRun_mem {α : Type} (c : Int) (ops : List (Op α)) :
    ∀ (l : List (Option α)) (x : Option α), x ∈ (absRun c l ops).2 →
      x ∈ l ∨ Op.enqueue x ∈ ops := by
  induction ops with
  | nil => intro l x hx; exact Or.inl hx
  | cons op ops ih =>
    intro l x hx
    cases op with
    | enqueue v =>
      by_cases hn : (l.length : Int) < c
      · simp only [absRun, absStep, hn, if_true] at hx
        rcases ih _ x hx with h | h
        · rcases List.mem_append.mp h with h | h
          · exact Or.inl h
          · have hxv : x = v := by simpa using h
            subst hxv
            exact Or.inr (List.mem_cons_self _ _)
        · exact Or.inr (List.mem_cons_of_mem _ h)
      · simp only [absRun, absStep, hn, if_false] at hx
        rcases ih _ x hx with h | h
        · exact Or.inl h
        · exact Or.inr (List.mem_cons_of_mem _ h)
    | dequeue =>
      cases l with
      | nil =>
        simp only [absRun, absStep] at hx
        rcases ih _ x hx with h | h
        · exact Or.inl h
        · exact Or.inr (List.mem_cons_of_mem _ h)
      | cons y l =>
        simp only [absRun, absStep] at hx
        rcases ih _ x hx with h | h
        · exact Or.inl (List.mem_cons_of_mem _ h)
        · exact Or.inr (List.mem_cons_of_mem _ h)

/-- Postcondition of `Enqueue` on a state that is not full, has at least one
slot and whose `rear` is at least -1 and below the largest `int`. -/
theorem Enqueue_post_of_rear_range (α : Type) (cq : CircularQueue α) (v : Option α) (c : Int)
    (hc : 1 ≤ c) (hlen : len cq.data = c) (hnf : IsFull cq = .ok false)
    (hr1 : -1 ≤ cq.rear) (hr2 : cq.rear < maxInt) :
    ∃ d, Enqueue cq v = .ok (true,
        { data := d, front := if cq.front = -1 then 0 else cq.front,
          rear := (cq.rear + 1) % c }) ∧
      d.length = cq.data.length ∧
      sliceGet d ((cq.rear + 1) % c) = .ok v ∧
      ∀ i : Int, i ≠ (cq.rear + 1) % c → sliceGet d i = sliceGet cq.data i := by
  unfold maxInt at hr2
  have hc0 : c ≠ 0 := by omega
  have hmod : goMod (wrapInt (cq.rear + 1)) (len cq.data) = .ok ((cq.rear + 1) % c) := by
    rw [wrapInt_of_range _ (by omega) (by omega), hlen]
    unfold goMod
    rw [if_neg hc0, Int.tmod_eq_emod (by omega) (by omega)]
  have hlo : 0 ≤ (cq.rear + 1) % c := Int.emod_nonneg _ hc0
  have hhi : (cq.rear + 1) % c < c := Int.emod_lt_of_pos _ (by omega)
  have hlen2 : (cq.data.length : Int) = c := hlen
  have hlt : ((cq.rear + 1) % c).toNat < cq.data.length := by omega
  have hnn : ¬ (cq.rear + 1) % c < 0 := by omega
  refine ⟨cq.data.set ((cq.rear + 1) % c).toNat v, ?_, ?_, ?_, ?_⟩
  · unfold Enqueue
    rw [hnf]
    by_cases he : cq.front = -1
    · simp [IsEmpty, he, hmod, sliceSet, hnn, hlt, bind, Except.bind, pure, Except.pure]
    · simp [IsEmpty, he, hmod, sliceSet, hnn, hlt, bind, Except.bind, pure, Except.pure]
  · simp
  · unfold sliceGet
    rw [if_neg (by omega), List.getElem?_set_self hlt]
  · intro i hi
    unfold sliceGet
    by_cases hneg : i < 0
    · rw [if_pos hneg, if_pos hneg]
    · rw [if_neg hneg, if_neg hneg, List.getElem?_set_ne (by omega)]

/-- On the not-full path `Enqueue` continues from the fields left by lines
44-46: it computes the new `rear` from them and stores the value there. -/
theorem Enqueue_from_front_update {α : Type} (cq : CircularQueue α) (v : Option α)
    (hnf : IsFull cq = .ok false) :
    Enqueue cq v = (do
      let r ← goMod (wrapInt ((enqueueAfterFrontUpdate cq).rear + 1))
        (len (enqueueAfterFrontUpdate cq).data)
      let d ← sliceSet (enqueueAfterFrontUpdate cq).data r v
      pure (true, { data := d, front := (enqueueAfterFrontUpdate cq).front, rear := r })) := by
  unfold Enqueue
  rw [hnf]
  rfl

/-! ## Claims -/

/-- C1 (FIFO round trip). For every capacity `1 ≤ c` (a Go `int`) and every
values `vs` with at most `c` entries, enqueueing `vs` one by one on the queue
built by `NewCircularQueue(c)` and then calling `Dequeue` as many times runs
without panic; every `Enqueue` returns `true` and the `Dequeue` calls return
exactly `vs` in the same order. -/
theorem C1_fifo_round_trip (α : Type) (c : Int) (h1 : 1 ≤ c) (h2 : c ≤ maxInt)
    (vs : List (Option α)) (hk : (vs.length : Int) ≤ c) :
    ∃ q, runNew c (vs.map Op.enqueue ++ List.replicate vs.length Op.dequeue)
      = .ok (vs.map Event.enqOk ++ vs.map Event.deqOk, q) := by
  obtain ⟨q, hq, _⟩ := Rep.runNew c h1 h2
    (vs.map Op.enqueue ++ List.replicate vs.length (Op.dequeue : Op α))
  refine ⟨q, ?_⟩
  rw [hq, absRun_append, absRun_fill c vs [] (by simpa using hk)]
  simp only [List.nil_append, absRun_drain]

/-- Witness of C1 at capacity 2 with the values 7, 8. -/
theorem C1_fifo_round_trip_witness :
    (1 : Int) ≤ 2 ∧ (2 : Int) ≤ maxInt ∧ (([some 7, some 8] : List (Option Nat)).length : Int) ≤ 2 ∧
      ∃ q, runNew 2 ([some 7, some 8].map Op.enqueue ++ List.replicate [some 7, some 8].length Op.dequeue)
        = .ok ([some 7, some 8].map Event.enqOk ++ [some 7, some 8].map Event.deqOk, q) :=
  ⟨by decide, by decide, by decide,
    C1_fifo_round_trip Nat 2 (by decide) (by decide) [some 7, some 8] (by decide)⟩

/-- C2 (fill, then one more). For every capacity `1 ≤ c` (a Go `int`) and
every `c` values `vs` followed by one more value `v`: on the queue built by
`NewCircularQueue(c)` the `c` calls `Enqueue(vs[i])` each return `true`, and the
next `Enqueue(v)` returns `false` and leaves the state unchanged. -/
theorem C2_fill_then_reject (α : Type) (c : Int) (h1 : 1 ≤ c) (h2 : c ≤ maxInt)
    (vs : List (Option α)) (hlen : (vs.length : Int) = c) (v : Option α) :
    ∃ q, runNew c (vs.map Op.enqueue) = .ok (vs.map Event.enqOk, q) ∧
      Enqueue q v = .ok (false, q) ∧
      runNew c (vs.map Op.enqueue ++ [Op.enqueue v])
        = .ok (vs.map Event.enqOk ++ [Event.enqFull v], q) := by
  obtain ⟨q, hq, hr⟩ := Rep.runNew c h1 h2 (vs.map Op.enqueue)
  have hfill := absRun_fill c vs [] (by simp only [List.length_nil, Nat.cast_zero]; omega)
  rw [hfill] at hq hr
  simp only [List.nil_append] at hq hr
  have hfull := hr.enqueue_full hlen v
  refine ⟨q, hq, hfull, ?_⟩
  unfold CircularQueueGo.runNew at hq ⊢
  cases hnew : (NewCircularQueue c : Except Panic (CircularQueue α)) with
  | error e => rw [hnew] at hq; simp [bind, Except.bind] at hq
  | ok q0 =>
    rw [hnew] at hq
    simp only [bind, Except.bind] at hq ⊢
    rw [run_append, hq]
    simp [CircularQueueGo.run, CircularQueueGo.step, hfull, bind, Except.bind, pure, Except.pure]

/-- Witness of C2 at capacity 2 with the values 7, 8 and then 9. -/
theorem C2_fill_then_reject_witness :
    (1 : Int) ≤ 2 ∧ (2 : Int) ≤ maxInt ∧ (([some 7, some 8] : List (Option Nat)).length : Int) = 2 ∧
      ∃ q, runNew 2 ([some 7, some 8].map Op.enqueue) = .ok ([some 7, some 8].map Event.enqOk, q) ∧
        Enqueue q (some 9) = .ok (false, q) ∧
        runNew 2 ([some 7, some 8].map Op.enqueue ++ [Op.enqueue (some 9)])
          = .ok ([some 7, some 8].map Event.enqOk ++ [Event.enqFull (some 9)], q) :=
  ⟨by decide, by decide, by decide,
    C2_fill_then_reject Nat 2 (by decide) (by decide) [some 7, some 8] (by decide) (some 9)⟩

/-- C3 (failed Enqueue is atomic). In every queue state in which `IsFull()` is
true, `Enqueue(v)` returns `false` and the state after the call is the state
before it: `front`, `rear` and every slot of `data` are unchanged. -/
theorem C3_failed_enqueue_atomic (α : Type) (cq : CircularQueue α) (v : Option α)
    (hfull : IsFull cq = .ok true) : Enqueue cq v = .ok (false, cq) := by
  unfold Enqueue
  rw [hfull]
  rfl

/-- Witness of C3 on the full queue of capacity 2 holding 7, 8. -/
theorem C3_failed_enqueue_atomic_witness :
    IsFull (⟨[some 7, some 8], 0, 1⟩ : CircularQueue Nat) = .ok true ∧
      Enqueue (⟨[some 7, some 8], 0, 1⟩ : CircularQueue Nat) (some 9)
        = .ok (false, ⟨[some 7, some 8], 0, 1⟩) :=
  ⟨by decide, C3_failed_enqueue_atomic Nat ⟨[some 7, some 8], 0, 1⟩ (some 9) (by decide)⟩

/-- C4 (usable capacity is exactly `c`). For every capacity `1 ≤ c` (a Go
`int`) and every sequence `ops` of `Enqueue`/`Dequeue` calls on the queue built
by `NewCircularQueue(c)`, the run does not panic and in the state reached
`IsFull()` is true iff the number of successful enqueues minus the number of
successful dequeues equals `c`, and `Enqueue(v)` returns `false` exactly in
that case. -/
theorem C4_full_iff_count (α : Type) (c : Int) (h1 : 1 ≤ c) (h2 : c ≤ maxInt)
    (ops : List (Op α)) :
    ∃ es q, runNew c ops = .ok (es, q) ∧
      IsFull q = .ok (decide (heldCount es = c)) ∧
      ∀ v, ∃ q', Enqueue q v = .ok (!decide (heldCount es = c), q') := by
  obtain ⟨q, hq, hr⟩ := Rep.runNew c h1 h2 ops
  have hcount := absRun_count c ops ([] : List (Option α))
  simp only [List.length_nil, Nat.cast_zero, zero_add] at hcount
  have hfull := hr.isFull
  rw [hcount] at hfull
  refine ⟨_, q, hq, hfull, ?_⟩
  intro v
  by_cases hc : heldCount (absRun c ([] : List (Option α)) ops).1 = c
  · refine ⟨q, ?_⟩
    rw [hr.enqueue_full (by rw [hcount]; exact hc) v]
    simp [hc]
  · have hs := hr.hsize
    obtain ⟨q', hq', _⟩ := hr.enqueue (by rw [hcount] at hs ⊢; omega) v
    refine ⟨q', ?_⟩
    rw [hq']
    simp [hc]

/-- Witness of C4 at capacity 2 on a run that wraps around. -/
theorem C4_full_iff_count_witness :
    (1 : Int) ≤ 2 ∧ (2 : Int) ≤ maxInt ∧
      ∃ es q, runNew 2 [Op.enqueue (some 7), Op.enqueue (some 8), Op.dequeue, Op.enqueue (some 9)]
          = .ok (es, q) ∧
        IsFull q = .ok (decide (heldCount es = 2)) ∧
        ∀ v : Option Nat, ∃ q', Enqueue q v = .ok (!decide (heldCount es = 2), q') :=
  ⟨by decide, by decide, C4_full_iff_count Nat 2 (by decide) (by decide)
    [Op.enqueue (some 7), Op.enqueue (some 8), Op.dequeue, Op.enqueue (some 9)]⟩

/-- C5, the claim as stated fails at capacity 1: the queue returned by
`NewCircularQueue(1)` is `{data: [nil], front: -1, rear: -1}` and `IsFull()`
on it evaluates `(−1+1) % 1 == −1`, which is `false`, not `true`. -/
theorem C5_fresh_capacity_one_not_full :
    (NewCircularQueue 1 : Except Panic (CircularQueue Nat)) = .ok ⟨[none], -1, -1⟩ ∧
      IsEmpty (⟨[none], -1, -1⟩ : CircularQueue Nat) = true ∧
      IsFull (⟨[none], -1, -1⟩ : CircularQueue Nat) = .ok false ∧
      ¬ IsFull (⟨[none], -1, -1⟩ : CircularQueue Nat) = .ok true := by
  decide

/-- C5 amended. For every capacity `1 ≤ c` (a Go `int`), the queue returned by
`NewCircularQueue(c)` reports `IsEmpty() = true` and `IsFull() = false`, also
when `c = 1`. -/
theorem C5_fresh_empty_not_full (α : Type) (c : Int) (h1 : 1 ≤ c) (h2 : c ≤ maxInt) :
    ∃ q : CircularQueue α, NewCircularQueue c = .ok q ∧ IsEmpty q = true ∧
      IsFull q = .ok false := by
  obtain ⟨hnew, hrep⟩ := Rep.new α c h1 h2
  refine ⟨_, hnew, ?_, ?_⟩
  · rw [hrep.isEmpty]
    rfl
  · rw [hrep.isFull]
    congr 1
    simp only [List.length_nil, Nat.cast_zero, decide_eq_false_iff_not]
    omega

/-- Witness of C5 amended at capacity 1. -/
theorem C5_fresh_empty_not_full_witness :
    (1 : Int) ≤ 1 ∧ (1 : Int) ≤ maxInt ∧
      ∃ q : CircularQueue Nat, NewCircularQueue 1 = .ok q ∧ IsEmpty q = true ∧
        IsFull q = .ok false :=
  ⟨by decide, by decide, C5_fresh_empty_not_full Nat 1 (by decide) (by decide)⟩

/-- C6, the claim as stated fails at capacity 0: `NewCircularQueue(0)` returns
a queue (zero slots, `front = rear = -1`) and no error. -/
theorem C6_zero_capacity_accepted :
    (NewCircularQueue 0 : Except Panic (CircularQueue Nat)) = .ok ⟨[], -1, -1⟩ := by
  decide

/-- C6 amended. `NewCircularQueue` does not validate its argument: for
capacity 0 it returns a queue with zero slots and `front = rear = -1`; for
every negative capacity it returns no queue because `make` panics at run time
(a panic, not an `InvalidCapacity` error value). -/
theorem C6_nonpositive_capacity (α : Type) (capacity : Int) (h : capacity ≤ 0) :
    (NewCircularQueue capacity : Except Panic (CircularQueue α))
      = if capacity = 0 then .ok ⟨[], -1, -1⟩ else .error .makesliceLenOutOfRange := by
  unfold NewCircularQueue
  by_cases h0 : capacity = 0
  · subst h0
    rfl
  · rw [if_pos (by omega), if_neg h0]

/-- Witness of C6 amended at capacity -3. -/
theorem C6_nonpositive_capacity_witness :
    (-3 : Int) ≤ 0 ∧
      (NewCircularQueue (-3) : Except Panic (CircularQueue Nat))
        = if (-3 : Int) = 0 then .ok ⟨[], -1, -1⟩ else .error .makesliceLenOutOfRange :=
  ⟨by decide, C6_nonpositive_capacity Nat (-3) (by decide)⟩

/-- C7 (Dequeue on an empty queue is a no-op). In every queue state with
`front == -1`, `Dequeue()` returns `nil` and the state after the call is the
state before it: `front`, `rear` and every slot of `data` are unchanged. -/
theorem C7_dequeue_empty_noop (α : Type) (cq : CircularQueue α) (h : cq.front = -1) :
    Dequeue cq = .ok (none, cq) := by
  unfold Dequeue IsEmpty
  rw [h]
  rfl

/-- Witness of C7 on a drained queue whose slots still hold old content. -/
theorem C7_dequeue_empty_noop_witness :
    (⟨[some 7, some 8], -1, -1⟩ : CircularQueue Nat).front = -1 ∧
      Dequeue (⟨[some 7, some 8], -1, -1⟩ : CircularQueue Nat)
        = .ok (none, ⟨[some 7, some 8], -1, -1⟩) :=
  ⟨by decide, C7_dequeue_empty_noop Nat ⟨[some 7, some 8], -1, -1⟩ (by decide)⟩

/-- C8 (peek contract). For every capacity `1 ≤ c` (a Go `int`) and every
sequence `ops` of `Enqueue`/`Dequeue` calls on the queue built by
`NewCircularQueue(c)`, the run does not panic, and if the state reached is not
empty then `Front()` returns the index `front` together with the oldest element
still held, which is the value the next `Dequeue()` returns, and `Rear()`
returns the index `rear` together with the value of the most recent `Enqueue`
that returned `true`. -/
theorem C8_peek_contract (α : Type) (c : Int) (h1 : 1 ≤ c) (h2 : c ≤ maxInt)
    (ops : List (Op α)) :
    ∃ es q, runNew c ops = .ok (es, q) ∧
      (IsEmpty q = false →
        ∃ x y q', Front q = .ok (q.front, x) ∧ (held [] es).head? = some x ∧
          Dequeue q = .ok (x, q') ∧
          Rear q = .ok (q.rear, y) ∧ lastEnqueued none es = some y) := by
  obtain ⟨q, hq, hr⟩ := Rep.runNew c h1 h2 ops
  have hheld := absRun_held c ops ([] : List (Option α))
  have hlast := absRun_last c ops ([] : List (Option α)) none (fun hx => absurd rfl hx)
  refine ⟨_, q, hq, ?_⟩
  intro hne
  rw [← hheld]
  generalize (absRun c ([] : List (Option α)) ops).2 = L at hr hlast
  cases L with
  | nil =>
    rw [hr.isEmpty] at hne
    simp at hne
  | cons x l =>
    obtain ⟨q', hd, _⟩ := hr.dequeue
    obtain ⟨y, hy, hrear⟩ := hr.rear_ne (by simp)
    refine ⟨x, y, q', hr.front_cons, rfl, hd, hrear, ?_⟩
    rw [← hlast (by simp)]
    exact hy

/-- Witness of C8 at capacity 2 on a run that wraps around. -/
theorem C8_peek_contract_witness :
    (1 : Int) ≤ 2 ∧ (2 : Int) ≤ maxInt ∧
      (∃ es q, runNew 2 [Op.enqueue (some 7), Op.enqueue (some 8), Op.dequeue, Op.enqueue (some 9)]
          = .ok (es, q) ∧
        (IsEmpty q = false →
          ∃ (x y : Option Nat) (q' : CircularQueue Nat),
            Front q = .ok (q.front, x) ∧ (held [] es).head? = some x ∧
            Dequeue q = .ok (x, q') ∧
            Rear q = .ok (q.rear, y) ∧ lastEnqueued none es = some y)) ∧
      (runNew 2 [Op.enqueue (some 7), Op.enqueue (some 8), Op.dequeue, Op.enqueue (some 9)]
          = .ok ([Event.enqOk (some 7), Event.enqOk (some 8), Event.deqOk (some 7),
              Event.enqOk (some 9)], (⟨[some 9, some 8], 1, 0⟩ : CircularQueue Nat)) ∧
        IsEmpty (⟨[some 9, some 8], 1, 0⟩ : CircularQueue Nat) = false ∧
        Front (⟨[some 9, some 8], 1, 0⟩ : CircularQueue Nat) = .ok (1, some 8) ∧
        Rear (⟨[some 9, some 8], 1, 0⟩ : CircularQueue Nat) = .ok (0, some 9)) :=
  ⟨by decide, by decide, C8_peek_contract Nat 2 (by decide) (by decide)
    [Op.enqueue (some 7), Op.enqueue (some 8), Op.dequeue, Op.enqueue (some 9)], by decide⟩

/-- C9 (peeking at an empty queue). For every capacity `1 ≤ c` (a Go `int`):
the queue fresh from `NewCircularQueue(c)`, the queue after `k ≤ c` enqueues
followed by `k` dequeues, and every state reached by `Enqueue`/`Dequeue` calls
in which `IsEmpty()` is true, all have `IsEmpty() = true`, `Front() = (-1, nil)`
and `Rear() = (-1, nil)`. -/
theorem C9_empty_peek (α : Type) (c : Int) (h1 : 1 ≤ c) (h2 : c ≤ maxInt) :
    (∃ q : CircularQueue α, NewCircularQueue c = .ok q ∧ IsEmpty q = true ∧
        Front q = .ok (-1, none) ∧ Rear q = .ok (-1, none)) ∧
      (∀ vs : List (Option α), (vs.length : Int) ≤ c →
        ∃ es q, runNew c (vs.map Op.enqueue ++ List.replicate vs.length Op.dequeue) = .ok (es, q) ∧
          IsEmpty q = true ∧ Front q = .ok (-1, none) ∧ Rear q = .ok (-1, none)) ∧
      (∀ ops : List (Op α), ∃ es q, runNew c ops = .ok (es, q) ∧
        (IsEmpty q = true → Front q = .ok (-1, none) ∧ Rear q = .ok (-1, none))) := by
  refine ⟨?_, ?_, ?_⟩
  · obtain ⟨hnew, hrep⟩ := Rep.new α c h1 h2
    exact ⟨_, hnew, by rw [hrep.isEmpty]; rfl, hrep.front_nil.1, hrep.front_nil.2⟩
  · intro vs hk
    obtain ⟨q, hq, hr⟩ := Rep.runNew c h1 h2
      (vs.map Op.enqueue ++ List.replicate vs.length (Op.dequeue : Op α))
    refine ⟨_, q, hq, ?_⟩
    rw [absRun_append, absRun_fill c vs [] (by simpa using hk)] at hr
    simp only [List.nil_append, absRun_drain] at hr
    exact ⟨by rw [hr.isEmpty]; rfl, hr.front_nil.1, hr.front_nil.2⟩
  · intro ops
    obtain ⟨q, hq, hr⟩ := Rep.runNew c h1 h2 ops
    refine ⟨_, q, hq, ?_⟩
    intro he
    generalize (absRun c ([] : List (Option α)) ops).2 = L at hr
    cases L with
    | nil => exact hr.front_nil
    | cons x l =>
      rw [hr.isEmpty] at he
      simp at he

/-- Witness of C9 at capacity 2. -/
theorem C9_empty_peek_witness :
    (1 : Int) ≤ 2 ∧ (2 : Int) ≤ maxInt ∧
    ((∃ q : CircularQueue Nat, NewCircularQueue 2 = .ok q ∧ IsEmpty q = true ∧
        Front q = .ok (-1, none) ∧ Rear q = .ok (-1, none)) ∧
      (∀ vs : List (Option Nat), (vs.length : Int) ≤ 2 →
        ∃ es q, runNew 2 (vs.map Op.enqueue ++ List.replicate vs.length Op.dequeue) = .ok (es, q) ∧
          IsEmpty q = true ∧ Front q = .ok (-1, none) ∧ Rear q = .ok (-1, none)) ∧
      (∀ ops : List (Op Nat), ∃ es q, runNew 2 ops = .ok (es, q) ∧
        (IsEmpty q = true → Front q = .ok (-1, none) ∧ Rear q = .ok (-1, none)))) ∧
    (runNew 2 [Op.enqueue (some 7), Op.enqueue (some 8), Op.dequeue, Op.dequeue]
        = .ok ([Event.enqOk (some 7), Event.enqOk (some 8), Event.deqOk (some 7),
            Event.deqOk (some 8)], (⟨[some 7, some 8], -1, -1⟩ : CircularQueue Nat)) ∧
      IsEmpty (⟨[some 7, some 8], -1, -1⟩ : CircularQueue Nat) = true ∧
      Front (⟨[some 7, some 8], -1, -1⟩ : CircularQueue Nat) = .ok (-1, none) ∧
      Rear (⟨[some 7, some 8], -1, -1⟩ : CircularQueue Nat) = .ok (-1, none)) :=
  ⟨by decide, by decide, C9_empty_peek Nat 2 (by decide) (by decide), by decide⟩

/-- C10 (restart at slot 0 after draining). For every capacity `1 ≤ c` (a Go
`int`) and every sequence `ops` of `Enqueue`/`Dequeue` calls on the queue built
by `NewCircularQueue(c)`, the run does not panic, and if the state reached is
empty then `Enqueue(x)` returns `true` and afterwards `Front() = (0, x)` and
`Rear() = (0, x)`. In particular this holds after filling the queue with `c`
values and draining it with `c` dequeues. -/
theorem C10_restart_at_zero (α : Type) (c : Int) (h1 : 1 ≤ c) (h2 : c ≤ maxInt) :
    (∀ ops : List (Op α), ∃ es q, runNew c ops = .ok (es, q) ∧
        (IsEmpty q = true → ∀ x, ∃ q', Enqueue q x = .ok (true, q') ∧
          Front q' = .ok (0, x) ∧ Rear q' = .ok (0, x))) ∧
      (∀ vs : List (Option α), (vs.length : Int) = c →
        ∃ es q, runNew c (vs.map Op.enqueue ++ List.replicate vs.length Op.dequeue) = .ok (es, q) ∧
          IsEmpty q = true ∧ ∀ x, ∃ q', Enqueue q x = .ok (true, q') ∧
            Front q' = .ok (0, x) ∧ Rear q' = .ok (0, x)) := by
  have key : ∀ q : CircularQueue α, Rep c q [] → ∀ x, ∃ q', Enqueue q x = .ok (true, q') ∧
      Front q' = .ok (0, x) ∧ Rear q' = .ok (0, x) := by
    intro q hr x
    obtain ⟨he, hr'⟩ := hr.enqueue_nil x
    obtain ⟨y, hy, hrear⟩ := hr'.rear_ne (by simp)
    have hyx : y = x := by simpa using hy.symm
    subst hyx
    exact ⟨_, he, hr'.front_cons, hrear⟩
  refine ⟨?_, ?_⟩
  · intro ops
    obtain ⟨q, hq, hr⟩ := Rep.runNew c h1 h2 ops
    refine ⟨_, q, hq, ?_⟩
    intro he
    generalize (absRun c ([] : List (Option α)) ops).2 = L at hr
    cases L with
    | nil => exact key q hr
    | cons x l =>
      rw [hr.isEmpty] at he
      simp at he
  · intro vs hk
    obtain ⟨q, hq, hr⟩ := Rep.runNew c h1 h2
      (vs.map Op.enqueue ++ List.replicate vs.length (Op.dequeue : Op α))
    refine ⟨_, q, hq, ?_⟩
    rw [absRun_append, absRun_fill c vs [] (by simp only [List.length_nil, Nat.cast_zero]; omega)] at hr
    simp only [List.nil_append, absRun_drain] at hr
    exact ⟨by rw [hr.isEmpty]; rfl, key q hr⟩

/-- Witness of C10 at capacity 2. -/
theorem C10_restart_at_zero_witness :
    (1 : Int) ≤ 2 ∧ (2 : Int) ≤ maxInt ∧
    ((∀ ops : List (Op Nat), ∃ es q, runNew 2 ops = .ok (es, q) ∧
        (IsEmpty q = true → ∀ x, ∃ q', Enqueue q x = .ok (true, q') ∧
          Front q' = .ok (0, x) ∧ Rear q' = .ok (0, x))) ∧
      (∀ vs : List (Option Nat), (vs.length : Int) = 2 →
        ∃ es q, runNew 2 (vs.map Op.enqueue ++ List.replicate vs.length Op.dequeue) = .ok (es, q) ∧
          IsEmpty q = true ∧ ∀ x, ∃ q', Enqueue q x = .ok (true, q') ∧
            Front q' = .ok (0, x) ∧ Rear q' = .ok (0, x))) ∧
    (runNew 2 [Op.enqueue (some 7), Op.dequeue, Op.enqueue (some 8), Op.dequeue]
        = .ok ([Event.enqOk (some 7), Event.deqOk (some 7), Event.enqOk (some 8),
            Event.deqOk (some 8)], (⟨[some 8, none], -1, -1⟩ : CircularQueue Nat)) ∧
      IsEmpty (⟨[some 8, none], -1, -1⟩ : CircularQueue Nat) = true ∧
      Enqueue (⟨[some 8, none], -1, -1⟩ : CircularQueue Nat) (some 9)
        = .ok (true, ⟨[some 9, none], 0, 0⟩) ∧
      Front (⟨[some 9, none], 0, 0⟩ : CircularQueue Nat) = .ok (0, some 9) ∧
      Rear (⟨[some 9, none], 0, 0⟩ : CircularQueue Nat) = .ok (0, some 9)) :=
  ⟨by decide, by decide, C10_restart_at_zero Nat 2 (by decide) (by decide), by decide⟩

/-- C11 (reads are pure and repeatable). For every queue state and every
sequence of calls of `IsEmpty`, `IsFull`, `Front` and `Rear`: each single call
leaves `front`, `rear` and `data` as they were, the state after the whole
sequence is the state before it, and every call in the sequence has the outcome
that the same call has on the initial state, so repeating a read gives the
same result each time. -/
theorem C11_reads_pure (α : Type) (cq : CircularQueue α) (rs : List ReadOp) :
    (∀ r, (read cq r).2 = cq) ∧ (reads cq rs).2 = cq ∧
      (reads cq rs).1 = rs.map (fun r => (read cq r).1) := by
  have h1 : ∀ r, (read cq r).2 = cq := by
    intro r
    cases r <;> rfl
  refine ⟨h1, ?_⟩
  induction rs with
  | nil => exact ⟨rfl, rfl⟩
  | cons r rs ih =>
    simp only [reads, h1, List.map_cons]
    exact ⟨ih.1, by rw [ih.2]⟩

/-- C12 (sentinel invariant). For every capacity `1 ≤ c` (a Go `int`) and
every sequence `ops` of `Enqueue`/`Dequeue` calls on the queue built by
`NewCircularQueue(c)`, the run does not panic and in the state reached
`front == -1` iff `rear == -1`, and `front == -1` iff the number of successful
enqueues minus the number of successful dequeues is 0. -/
theorem C12_sentinel_invariant (α : Type) (c : Int) (h1 : 1 ≤ c) (h2 : c ≤ maxInt)
    (ops : List (Op α)) :
    ∃ es q, runNew c ops = .ok (es, q) ∧
      (q.front = -1 ↔ q.rear = -1) ∧ (q.front = -1 ↔ heldCount es = 0) := by
  obtain ⟨es, q, l, hq, hr, hcount, _, _⟩ := runNew_held_count c h1 h2 ops
  refine ⟨es, q, hq, ?_⟩
  rw [← hcount]
  by_cases hl : l = []
  · have he := hr.hempty hl
    subst hl
    simp [he.1, he.2]
  · have hi := hr.index_range hl
    have hpos : 0 < l.length := List.length_pos.mpr hl
    constructor
    · constructor <;> intro hx <;> omega
    · constructor <;> intro hx <;> omega

/-- Witness of C12 at capacity 2 on a run that fills, drains and refills. -/
theorem C12_sentinel_invariant_witness :
    (1 : Int) ≤ 2 ∧ (2 : Int) ≤ maxInt ∧
      (∃ es q, runNew 2 [Op.enqueue (some 7), Op.enqueue (some 8), Op.dequeue, Op.dequeue,
            Op.dequeue, Op.enqueue (some 9)] = .ok (es, q) ∧
        (q.front = -1 ↔ q.rear = -1) ∧ (q.front = -1 ↔ heldCount es = 0)) ∧
      runNew 2 [Op.enqueue (some 7), Op.enqueue (some 8), Op.dequeue, Op.dequeue]
        = .ok ([Event.enqOk (some 7), Event.enqOk (some 8), Event.deqOk (some 7),
            Event.deqOk (some 8)], (⟨[some 7, some 8], -1, -1⟩ : CircularQueue Nat)) :=
  ⟨by decide, by decide, C12_sentinel_invariant Nat 2 (by decide) (by decide)
    [Op.enqueue (some 7), Op.enqueue (some 8), Op.dequeue, Op.dequeue, Op.dequeue,
      Op.enqueue (some 9)], by decide⟩

/-- C13 (successful Enqueue postcondition). For every capacity `1 ≤ c` (a Go
`int`) and every sequence `ops` of `Enqueue`/`Dequeue` calls on the queue built
by `NewCircularQueue(c)`, the run does not panic and the state reached has
capacity `c`; if that state is not full then `Enqueue(v)` returns `true`, sets
`rear` to `(old rear + 1) mod c`, stores `v` in slot `rear`, sets `front` to 0
if the queue was empty and otherwise leaves `front` unchanged, and leaves every
other slot of `data` unchanged. -/
theorem C13_enqueue_post (α : Type) (c : Int) (h1 : 1 ≤ c) (h2 : c ≤ maxInt)
    (ops : List (Op α)) :
    ∃ es q, runNew c ops = .ok (es, q) ∧ len q.data = c ∧
      (IsFull q = .ok false → ∀ v, ∃ d, Enqueue q v = .ok (true,
          { data := d, front := if q.front = -1 then 0 else q.front,
            rear := (q.rear + 1) % c }) ∧
        d.length = q.data.length ∧
        sliceGet d ((q.rear + 1) % c) = .ok v ∧
        ∀ i : Int, i ≠ (q.rear + 1) % c → sliceGet d i = sliceGet q.data i) := by
  obtain ⟨es, q, l, hq, hr, _, _, _⟩ := runNew_held_count c h1 h2 ops
  refine ⟨es, q, hq, hr.hlen, ?_⟩
  intro hnf v
  have hrange := hr.rear_range
  exact Enqueue_post_of_rear_range α q v c h1 hr.hlen hnf hrange.1 (by omega)

/-- Witness of C13 at capacity 3 on a run after which the queue is not full
and `rear` wraps from slot 2 to slot 0. -/
theorem C13_enqueue_post_witness :
    (1 : Int) ≤ 3 ∧ (3 : Int) ≤ maxInt ∧
      (∃ es q, runNew 3 [Op.enqueue (some 7), Op.enqueue (some 8), Op.enqueue (some 9),
            Op.dequeue] = .ok (es, q) ∧ len q.data = 3 ∧
        (IsFull q = .ok false → ∀ v : Option Nat, ∃ d, Enqueue q v = .ok (true,
            { data := d, front := if q.front = -1 then 0 else q.front,
              rear := (q.rear + 1) % 3 }) ∧
          d.length = q.data.length ∧
          sliceGet d ((q.rear + 1) % 3) = .ok v ∧
          ∀ i : Int, i ≠ (q.rear + 1) % 3 → sliceGet d i = sliceGet q.data i)) ∧
      (runNew 3 [Op.enqueue (some 7), Op.enqueue (some 8), Op.enqueue (some 9), Op.dequeue]
          = .ok ([Event.enqOk (some 7), Event.enqOk (some 8), Event.enqOk (some 9),
              Event.deqOk (some 7)], (⟨[some 7, some 8, some 9], 1, 2⟩ : CircularQueue Nat)) ∧
        IsFull (⟨[some 7, some 8, some 9], 1, 2⟩ : CircularQueue Nat) = .ok false ∧
        Enqueue (⟨[some 7, some 8, some 9], 1, 2⟩ : CircularQueue Nat) (some 5)
          = .ok (true, ⟨[some 5, some 8, some 9], 1, 0⟩)) :=
  ⟨by decide, by decide, C13_enqueue_post Nat 3 (by decide) (by decide)
    [Op.enqueue (some 7), Op.enqueue (some 8), Op.enqueue (some 9), Op.dequeue], by decide⟩

/-- C14 (successful Dequeue postcondition). For every non-empty state with
capacity `c ≥ 1` (a Go `int`) and `0 ≤ front < c`, `Dequeue()` returns the
value stored at slot `front`; if `front == rear` it sets `front` and `rear` to
-1, otherwise it sets `front` to `(old front + 1) mod c` and leaves `rear`
unchanged; in both cases `data` is left as it was. -/
theorem C14_dequeue_post (α : Type) (cq : CircularQueue α) (c : Int)
    (hc : 1 ≤ c) (hmax : c ≤ maxInt) (hlen : len cq.data = c)
    (hne : IsEmpty cq = false) (hf0 : 0 ≤ cq.front) (hf1 : cq.front < c) :
    ∃ x, sliceGet cq.data cq.front = .ok x ∧
      Dequeue cq = .ok (x,
        if cq.front = cq.rear then { data := cq.data, front := -1, rear := -1 }
        else { data := cq.data, front := (cq.front + 1) % c, rear := cq.rear }) := by
  unfold maxInt at hmax
  have hc0 : c ≠ 0 := by omega
  have hlen2 : (cq.data.length : Int) = c := hlen
  have hlt : cq.front.toNat < cq.data.length := by omega
  have hnn : ¬ cq.front < 0 := by omega
  have hget : sliceGet cq.data cq.front = .ok (cq.data[cq.front.toNat]) := by
    unfold sliceGet
    rw [if_neg hnn, List.getElem?_eq_getElem hlt]
  have hmod : goMod (wrapInt (cq.front + 1)) (len cq.data) = .ok ((cq.front + 1) % c) := by
    rw [wrapInt_of_range _ (by omega) (by omega), hlen]
    unfold goMod
    rw [if_neg hc0, Int.tmod_eq_emod (by omega) (by omega)]
  refine ⟨cq.data[cq.front.toNat], hget, ?_⟩
  unfold Dequeue
  rw [hne, hget]
  by_cases hfr : cq.front = cq.rear
  · simp [hfr, bind, Except.bind, pure, Except.pure]
  · simp [hfr, hmod, bind, Except.bind, pure, Except.pure]

/-- Witness of C14 on a queue of capacity 3 whose `front` wraps from slot 2
to slot 0. -/
theorem C14_dequeue_post_witness :
    (1 : Int) ≤ 3 ∧ (3 : Int) ≤ maxInt ∧
      len (⟨[some 7, some 8, some 9], 2, 0⟩ : CircularQueue Nat).data = 3 ∧
      IsEmpty (⟨[some 7, some 8, some 9], 2, 0⟩ : CircularQueue Nat) = false ∧
      (0 : Int) ≤ (⟨[some 7, some 8, some 9], 2, 0⟩ : CircularQueue Nat).front ∧
      (⟨[some 7, some 8, some 9], 2, 0⟩ : CircularQueue Nat).front < 3 ∧
      (∃ x, sliceGet (⟨[some 7, some 8, some 9], 2, 0⟩ : CircularQueue Nat).data
            (⟨[some 7, some 8, some 9], 2, 0⟩ : CircularQueue Nat).front = .ok x ∧
        Dequeue (⟨[some 7, some 8, some 9], 2, 0⟩ : CircularQueue Nat) = .ok (x,
          if (⟨[some 7, some 8, some 9], 2, 0⟩ : CircularQueue Nat).front
              = (⟨[some 7, some 8, some 9], 2, 0⟩ : CircularQueue Nat).rear
          then { data := (⟨[some 7, some 8, some 9], 2, 0⟩ : CircularQueue Nat).data,
                 front := -1, rear := -1 }
          else { data := (⟨[some 7, some 8, some 9], 2, 0⟩ : CircularQueue Nat).data,
                 front := ((⟨[some 7, some 8, some 9], 2, 0⟩ : CircularQueue Nat).front + 1) % 3,
                 rear := (⟨[some 7, some 8, some 9], 2, 0⟩ : CircularQueue Nat).rear })) ∧
      Dequeue (⟨[some 7, some 8, some 9], 2, 0⟩ : CircularQueue Nat)
        = .ok (some 9, ⟨[some 7, some 8, some 9], 0, 0⟩) :=
  ⟨by decide, by decide, by decide, by decide, by decide, by decide,
    C14_dequeue_post Nat ⟨[some 7, some 8, some 9], 2, 0⟩ 3 (by decide) (by decide) (by decide)
      (by decide) (by decide) (by decide), by decide⟩

/-- C16 (every public operation holds the lock), evaluated where the code
departs from it. On the queue built by `NewCircularQueue(2)` a first caller is
inside `Enqueue(7)`: it holds the mutex and has executed line 45 (`front = 0`)
but not yet line 48 (`rear = ...`). A second call of `Enqueue`, `Dequeue`,
`Front` or `Rear` waits in `Lock`, but `IsEmpty` and `IsFull` (lines 26-33, no
`Lock` call) return at once on the half-updated fields `front = 0, rear = -1`:
`IsFull()` reports `true` and `IsEmpty()` reports `false` on a queue that holds
no element, although `IsFull()` is `false` both before and after the
`Enqueue`. -/
theorem C16_unlocked_reads_see_half_update :
    (NewCircularQueue 2 : Except Panic (CircularQueue Nat)) = .ok ⟨[none, none], -1, -1⟩ ∧
      IsFull (⟨[none, none], -1, -1⟩ : CircularQueue Nat) = .ok false ∧
      enqueueAfterFrontUpdate (⟨[none, none], -1, -1⟩ : CircularQueue Nat)
        = ⟨[none, none], 0, -1⟩ ∧
      Guarded.Enqueue (⟨⟨[none, none], 0, -1⟩, true⟩ : Guarded Nat) (some 8) = .blocked ∧
      Guarded.Dequeue (⟨⟨[none, none], 0, -1⟩, true⟩ : Guarded Nat) = .blocked ∧
      Guarded.Front (⟨⟨[none, none], 0, -1⟩, true⟩ : Guarded Nat) = .blocked ∧
      Guarded.Rear (⟨⟨[none, none], 0, -1⟩, true⟩ : Guarded Nat) = .blocked ∧
      Guarded.IsFull (⟨⟨[none, none], 0, -1⟩, true⟩ : Guarded Nat)
        = .returned true ⟨⟨[none, none], 0, -1⟩, true⟩ ∧
      Guarded.IsEmpty (⟨⟨[none, none], 0, -1⟩, true⟩ : Guarded Nat)
        = .returned false ⟨⟨[none, none], 0, -1⟩, true⟩ ∧
      Enqueue (⟨[none, none], -1, -1⟩ : CircularQueue Nat) (some 7)
        = .ok (true, ⟨[some 7, none], 0, 0⟩) ∧
      IsFull (⟨[some 7, none], 0, 0⟩ : CircularQueue Nat) = .ok false := by
  decide

/-- C17 (refinement of a bounded FIFO across wraparound). For every capacity
`1 ≤ c` (a Go `int`), every finite sequence `ops` of `Enqueue`/`Dequeue` calls
on the queue built by `NewCircularQueue(c)` and every step `n` of it: the first
`n` calls run without panic, each returns what the same call returns on the
abstract list-based queue bounded by `c`, and afterwards the slots from `front`
to `rear` walking forward modulo `c` hold exactly the abstract list in order. -/
theorem C17_refines_bounded_fifo (α : Type) (c : Int) (h1 : 1 ≤ c) (h2 : c ≤ maxInt)
    (ops : List (Op α)) (n : Nat) :
    ∃ q, runNew c (ops.take n) = .ok ((absRun c [] (ops.take n)).1, q) ∧
      occupied q = (absRun c [] (ops.take n)).2 := by
  obtain ⟨q, hq, hr⟩ := Rep.runNew c h1 h2 (ops.take n)
  exact ⟨q, hq, hr.occupied⟩

/-- Witness of C17 at capacity 2 on a run in which `rear` and `front` both wrap
past index 1. -/
theorem C17_refines_bounded_fifo_witness :
    (1 : Int) ≤ 2 ∧ (2 : Int) ≤ maxInt ∧
      (∃ q : CircularQueue Nat,
        runNew 2 ([Op.enqueue (some 7), Op.enqueue (some 8), Op.enqueue (some 9), Op.dequeue,
            Op.enqueue (some 5), Op.dequeue].take 6)
          = .ok ((absRun 2 [] ([Op.enqueue (some 7), Op.enqueue (some 8), Op.enqueue (some 9),
              Op.dequeue, Op.enqueue (some 5), Op.dequeue].take 6)).1, q) ∧
        occupied q = (absRun 2 [] ([Op.enqueue (some 7), Op.enqueue (some 8),
            Op.enqueue (some 9), Op.dequeue, Op.enqueue (some 5), Op.dequeue].take 6)).2) ∧
      runNew 2 [Op.enqueue (some 7), Op.enqueue (some 8), Op.enqueue (some 9), Op.dequeue,
          Op.enqueue (some 5), Op.dequeue]
        = .ok ([Event.enqOk (some 7), Event.enqOk (some 8), Event.enqFull (some 9),
            Event.deqOk (some 7), Event.enqOk (some 5), Event.deqOk (some 8)],
          (⟨[some 5, some 8], 0, 0⟩ : CircularQueue Nat)) ∧
      occupied (⟨[some 5, some 8], 1, 0⟩ : CircularQueue Nat) = [some 8, some 5] :=
  ⟨by decide, by decide, C17_refines_bounded_fifo Nat 2 (by decide) (by decide)
    [Op.enqueue (some 7), Op.enqueue (some 8), Op.enqueue (some 9), Op.dequeue,
      Op.enqueue (some 5), Op.dequeue] 6, by decide, by decide⟩

/-- C18 (capacity 0 is accepted and then breaks `IsFull`).
`NewCircularQueue(0)` returns a queue with zero slots and `front = rear = -1`
and no error; on it `IsEmpty()` is true and `Dequeue()` returns `nil` leaving it
unchanged, but `IsFull()` and every `Enqueue(v)` panic with an integer division
by zero in `(rear+1) % len(data)`, so `Enqueue` yields no boolean. -/
theorem C18_zero_capacity_breaks_isFull (α : Type) :
    (NewCircularQueue 0 : Except Panic (CircularQueue α)) = .ok ⟨[], -1, -1⟩ ∧
      IsEmpty (⟨[], -1, -1⟩ : CircularQueue α) = true ∧
      Dequeue (⟨[], -1, -1⟩ : CircularQueue α) = .ok (none, ⟨[], -1, -1⟩) ∧
      IsFull (⟨[], -1, -1⟩ : CircularQueue α) = .error .divideByZero ∧
      ∀ v, Enqueue (⟨[], -1, -1⟩ : CircularQueue α) v = .error .divideByZero := by
  refine ⟨rfl, rfl, rfl, rfl, ?_⟩
  intro v
  rfl

/-- C19 (index safety). For every capacity `1 ≤ c` (a Go `int`) and every
sequence `ops` of `Enqueue`/`Dequeue` calls on the queue built by
`NewCircularQueue(c)`, the run does not panic and in the state reached
`len(data)` is still `c` and either `front = rear = -1` or both
`0 ≤ front < c` and `0 ≤ rear < c`; consequently `IsFull`, `Enqueue`,
`Dequeue`, `Front` and `Rear` called in that state return without an
out-of-range slice access and without a division by zero. -/
theorem C19_index_safety (α : Type) (c : Int) (h1 : 1 ≤ c) (h2 : c ≤ maxInt)
    (ops : List (Op α)) :
    ∃ es q, runNew c ops = .ok (es, q) ∧ len q.data = c ∧
      ((q.front = -1 ∧ q.rear = -1) ∨
        (0 ≤ q.front ∧ q.front < c ∧ 0 ≤ q.rear ∧ q.rear < c)) ∧
      (∃ b, IsFull q = .ok b) ∧ (∀ v, ∃ r, Enqueue q v = .ok r) ∧
      (∃ r, Dequeue q = .ok r) ∧ (∃ r, Front q = .ok r) ∧ (∃ r, Rear q = .ok r) := by
  obtain ⟨es, q, l, hq, hr, _, _, _⟩ := runNew_held_count c h1 h2 ops
  refine ⟨es, q, hq, hr.hlen, ?_, ⟨_, hr.isFull⟩, ?_, ?_, ?_, ?_⟩
  · by_cases hl : l = []
    · exact Or.inl (hr.hempty hl)
    · exact Or.inr (hr.index_range hl)
  · intro v
    by_cases hn : (l.length : Int) < c
    · obtain ⟨q', hq', _⟩ := hr.enqueue hn v
      exact ⟨_, hq'⟩
    · have hs := hr.hsize
      exact ⟨_, hr.enqueue_full (by omega) v⟩
  · cases l with
    | nil => exact ⟨_, hr.dequeue_nil⟩
    | cons x l =>
      obtain ⟨q', hq', _⟩ := hr.dequeue
      exact ⟨_, hq'⟩
  · cases l with
    | nil => exact ⟨_, hr.front_nil.1⟩
    | cons x l => exact ⟨_, hr.front_cons⟩
  · cases l with
    | nil => exact ⟨_, hr.front_nil.2⟩
    | cons x l =>
      obtain ⟨y, _, hy⟩ := hr.rear_ne (by simp)
      exact ⟨_, hy⟩

/-- Witness of C19 at capacity 2 on a run that wraps around. -/
theorem C19_index_safety_witness :
    (1 : Int) ≤ 2 ∧ (2 : Int) ≤ maxInt ∧
      ∃ es q, runNew 2 [Op.enqueue (some 7), Op.enqueue (some 8), Op.dequeue, Op.enqueue (some 9)]
          = .ok (es, q) ∧ len q.data = 2 ∧
        ((q.front = -1 ∧ q.rear = -1) ∨
          (0 ≤ q.front ∧ q.front < 2 ∧ 0 ≤ q.rear ∧ q.rear < 2)) ∧
        (∃ b, IsFull q = .ok b) ∧ (∀ v : Option Nat, ∃ r, Enqueue q v = .ok r) ∧
        (∃ r, Dequeue q = .ok r) ∧ (∃ r, Front q = .ok r) ∧ (∃ r, Rear q = .ok r) :=
  ⟨by decide, by decide, C19_index_safety Nat 2 (by decide) (by decide)
    [Op.enqueue (some 7), Op.enqueue (some 8), Op.dequeue, Op.enqueue (some 9)]⟩

/-- C20 (a nil result means empty when every payload is non-nil). For every
capacity `1 ≤ c` (a Go `int`) and every sequence `ops` of `Enqueue`/`Dequeue`
calls on the queue built by `NewCircularQueue(c)` in which every enqueued value
is non-nil, the run does not panic and in the state reached `Dequeue()` returns
`nil` iff the queue is empty before that call, and the values returned by
`Front()` and by `Rear()` are `nil` iff the queue is empty. -/
theorem C20_nil_iff_empty (α : Type) (c : Int) (h1 : 1 ≤ c) (h2 : c ≤ maxInt)
    (ops : List (Op α)) (hnn : ∀ v, Op.enqueue v ∈ ops → v ≠ none) :
    ∃ es q, runNew c ops = .ok (es, q) ∧
      ∃ x q' i y j z, Dequeue q = .ok (x, q') ∧ (x = none ↔ IsEmpty q = true) ∧
        Front q = .ok (i, y) ∧ (y = none ↔ IsEmpty q = true) ∧
        Rear q = .ok (j, z) ∧ (z = none ↔ IsEmpty q = true) := by
  obtain ⟨q, hq, hr⟩ := Rep.runNew c h1 h2 ops
  have hmem : ∀ x, x ∈ (absRun c ([] : List (Option α)) ops).2 → x ≠ none := by
    intro x hx
    rcases absRun_mem c ops [] x hx with h | h
    · simp at h
    · exact hnn x h
  refine ⟨_, q, hq, ?_⟩
  generalize (absRun c ([] : List (Option α)) ops).2 = L at hr hmem
  cases L with
  | nil =>
    have he : IsEmpty q = true := by rw [hr.isEmpty]; rfl
    exact ⟨none, q, -1, none, -1, none, hr.dequeue_nil, by simp [he], hr.front_nil.1,
      by simp [he], hr.front_nil.2, by simp [he]⟩
  | cons x l =>
    have he : IsEmpty q = false := by rw [hr.isEmpty]; rfl
    obtain ⟨q', hd, _⟩ := hr.dequeue
    obtain ⟨z, hz, hrear⟩ := hr.rear_ne (by simp)
    have hx : x ≠ none := hmem x (List.mem_cons_self _ _)
    have hzn : z ≠ none := hmem z (List.mem_of_getLast?_eq_some hz)
    exact ⟨x, q', q.front, x, q.rear, z, hd, by simp [he, hx], hr.front_cons,
      by simp [he, hx], hrear, by simp [he, hzn]⟩

/-- Witness of C20 at capacity 2 with the payloads 7, 8. -/
theorem C20_nil_iff_empty_witness :
    (1 : Int) ≤ 2 ∧ (2 : Int) ≤ maxInt ∧
      (∀ v : Option Nat,
        Op.enqueue v ∈ [Op.enqueue (some 7), Op.enqueue (some 8), Op.dequeue] → v ≠ none) ∧
      (∃ es q, runNew 2 [Op.enqueue (some 7), Op.enqueue (some 8), Op.dequeue] = .ok (es, q) ∧
        ∃ (x : Option Nat) (q' : CircularQueue Nat) (i : Int) (y : Option Nat) (j : Int)
          (z : Option Nat),
          Dequeue q = .ok (x, q') ∧ (x = none ↔ IsEmpty q = true) ∧
          Front q = .ok (i, y) ∧ (y = none ↔ IsEmpty q = true) ∧
          Rear q = .ok (j, z) ∧ (z = none ↔ IsEmpty q = true)) ∧
      runNew 2 [Op.enqueue (some 7), Op.enqueue (some 8), Op.dequeue]
        = .ok ([Event.enqOk (some 7), Event.enqOk (some 8), Event.deqOk (some 7)],
          (⟨[some 7, some 8], 1, 1⟩ : CircularQueue Nat)) :=
  ⟨by decide, by decide,
    by intro v hv; simp at hv; rcases hv with rfl | rfl <;> simp,
    C20_nil_iff_empty Nat 2 (by decide) (by decide)
      [Op.enqueue (some 7), Op.enqueue (some 8), Op.dequeue]
      (by intro v hv; simp at hv; rcases hv with rfl | rfl <;> simp),
    by decide⟩

end CircularQueueGo
